import Mathlib

/-!
Verification development for the Bluebild periodic-synthesis pipeline
(pypeline). The repository ships two example scripts
(examples/real_data/lofar_bootes_ps.py, examples/simulation/lofar_bootes_ps.py)
that drive the pipeline: ParameterEstimator, DataProcessor and the
Fourier_IMFS_Block imager. The library modules themselves are not part of
the source tree here, so the imager/estimator/processor behaviour is
modelled from the specification; the script-level facts (strides,
constructor arguments, sensitivity normalization) are translated directly
from the two scripts.

Numeric values are modelled with exact rationals, so statements the spec
gives "up to floating-point tolerance" become exact equalities.
-/

namespace Pypeline

/-- Lifecycle states of the periodic-synthesis imager:
CREATED, then ACCUMULATING, then FINALIZED. -/
inductive ImagerState
  | created
  | accumulating
  | finalized
deriving DecidableEq

/-- Errors of the Bluebild core named by the spec: StateError for
state-machine misuse, InputShapeError for mismatched snapshot dimensions. -/
inductive PypelineError
  | stateError
  | inputShapeError
deriving DecidableEq

/-- Modelled from the spec: the per-snapshot eigen-data handed to
accumulate(). `eigenvalues` are the retained generalized eigenvalues,
`fieldCoeff` abstracts each eigen-component's beamformed field coefficient
(the projection of antenna positions and beamforming weights through the
eigenvector, reduced to one rational per component), `cluster` is the
energy-level assignment of each component. -/
structure Snapshot where
  eigenvalues : List ℚ
  fieldCoeff : List ℚ
  cluster : List ℕ
deriving DecidableEq

/-- Modelled from the spec: a snapshot is well shaped when its eigenvalue,
field-coefficient and cluster arrays agree in length (the spec's
"mismatched covariance/Gram/weight dimensions within a snapshot" reduced
to the eigen-data the imager consumes). -/
def Snapshot.wellShaped (s : Snapshot) : Bool :=
  s.fieldCoeff.length == s.eigenvalues.length
    && s.cluster.length == s.eigenvalues.length

/-- Modelled from the spec: the contribution of one snapshot to the
accumulated coefficient of energy level ℓ — the sum, over eigen-components
assigned to level ℓ, of the eigenvalue-weighted field coefficient. -/
def contribAt (s : Snapshot) (ℓ : ℕ) : ℚ :=
  ((List.range s.eigenvalues.length).map (fun j =>
    if s.cluster.getD j 0 = ℓ then
      s.eigenvalues.getD j 0 * s.fieldCoeff.getD j 0
    else 0)).sum

/-- Modelled from the spec: one accumulate() step on the per-level
coefficient buffer (length `n` = N_level): purely additive update. -/
def updCoeffs (n : ℕ) (c : List ℚ) (s : Snapshot) : List ℚ :=
  (List.range n).map (fun ℓ => c.getD ℓ 0 + contribAt s ℓ)

/-- Running accumulate() over a whole list of snapshots. -/
def accumulateAll (n : ℕ) (c : List ℚ) (l : List Snapshot) : List ℚ :=
  l.foldl (updCoeffs n) c

/-- The finalized image pair: standardized and least-squares per-level
pixel cubes. -/
structure FinalImage where
  std : List ℚ
  lsq : List ℚ
deriving DecidableEq

/-- Modelled from the spec: the standardized estimator evaluates the
accumulated eigenvalue-weighted coefficients directly; the pixel-grid
evaluation is abstracted to the coefficients themselves. -/
def evalStd (c : List ℚ) : List ℚ := c

/-- Modelled from the spec: the least-squares estimator applies a bias
correction to the same accumulated coefficients; the spec notes the precise
deconvolution is not observable from usage, so it is abstracted to a
pointwise map of the coefficients. -/
def evalLsq (c : List ℚ) : List ℚ := c.map (fun q => q)

/-- Modelled from the spec: the stateful periodic-synthesis imager.
Construction fixes N_level; the coefficient buffer is exclusively owned. -/
structure Imager where
  nLevel : ℕ
  st : ImagerState
  coeffs : List ℚ
  cached : Option FinalImage
deriving DecidableEq

/-- A freshly constructed imager: CREATED, zeroed coefficient buffer. -/
def Imager.new (n : ℕ) : Imager :=
  ⟨n, .created, List.replicate n 0, none⟩

/-- Finalization of the current coefficient buffer into the image pair. -/
def mkImage (i : Imager) : FinalImage :=
  ⟨evalStd i.coeffs, evalLsq i.coeffs⟩

/-- Modelled from the spec: accumulate(). StateError after finalize;
InputShapeError on a malformed snapshot, committing nothing; otherwise the
additive coefficient update, and the state becomes (or stays)
ACCUMULATING. -/
def Imager.accumulate (i : Imager) (s : Snapshot) :
    Except PypelineError Imager :=
  if i.st = .finalized then .error .stateError
  else if s.wellShaped then
    .ok { i with st := .accumulating,
                 coeffs := updCoeffs i.nLevel i.coeffs s }
  else .error .inputShapeError

/-- Modelled from the spec: as_image(). StateError before any
accumulate(); on the first call the state moves ACCUMULATING → FINALIZED
and the image pair is cached; repeat calls return the cached pair. -/
def Imager.asImage (i : Imager) :
    Except PypelineError (FinalImage × Imager) :=
  match i.st with
  | .created => .error .stateError
  | .accumulating =>
      .ok (mkImage i, { i with st := .finalized, cached := some (mkImage i) })
  | .finalized =>
      .ok (i.cached.getD (mkImage i), i)

/-- Driving one snapshot through accumulate(): on an error the previous
imager is kept unchanged and the error is reported. -/
def runSnapshot (i : Imager) (s : Snapshot) :
    Imager × Option PypelineError :=
  match i.accumulate s with
  | .ok j => (j, none)
  | .error e => (i, some e)

lemma getD_map_range (f : ℕ → ℚ) (n ℓ : ℕ) :
    ((List.range n).map f).getD ℓ 0 = if ℓ < n then f ℓ else 0 := by
  by_cases h : ℓ < n
  · have hlen : ℓ < ((List.range n).map f).length := by
      simpa using h
    rw [if_pos h, List.getD_eq_getElem _ _ hlen]
    simp
  · rw [if_neg h, List.getD_eq_default]
    simpa using Nat.le_of_not_lt h

lemma updCoeffs_getD (n : ℕ) (c : List ℚ) (s : Snapshot) (ℓ : ℕ) :
    (updCoeffs n c s).getD ℓ 0 =
      if ℓ < n then c.getD ℓ 0 + contribAt s ℓ else 0 := by
  simpa [updCoeffs] using getD_map_range (fun ℓ => c.getD ℓ 0 + contribAt s ℓ) n ℓ

lemma updCoeffs_length (n : ℕ) (c : List ℚ) (s : Snapshot) :
    (updCoeffs n c s).length = n := by
  simp [updCoeffs]

lemma accumulateAll_cons_length (n : ℕ) :
    ∀ (t : List Snapshot) (s : Snapshot) (c : List ℚ),
      (accumulateAll n c (s :: t)).length = n := by
  intro t
  induction t with
  | nil =>
      intro s c
      simp [accumulateAll, updCoeffs_length]
  | cons x xs ih =>
      intro s c
      have : accumulateAll n c (s :: x :: xs)
           = accumulateAll n (updCoeffs n c s) (x :: xs) := by
        simp [accumulateAll]
      rw [this]
      exact ih x (updCoeffs n c s)

lemma accumulateAll_cons_getD (n : ℕ) :
    ∀ (t : List Snapshot) (s : Snapshot) (c : List ℚ) (ℓ : ℕ),
      (accumulateAll n c (s :: t)).getD ℓ 0 =
        if ℓ < n then
          c.getD ℓ 0 + ((s :: t).map (fun x => contribAt x ℓ)).sum
        else 0 := by
  intro t
  induction t with
  | nil =>
      intro s c ℓ
      have : accumulateAll n c [s] = updCoeffs n c s := by
        simp [accumulateAll]
      rw [this, updCoeffs_getD]
      simp
  | cons x xs ih =>
      intro s c ℓ
      have hfold : accumulateAll n c (s :: x :: xs)
           = accumulateAll n (updCoeffs n c s) (x :: xs) := by
        simp [accumulateAll]
      rw [hfold, ih x (updCoeffs n c s) ℓ, updCoeffs_getD]
      by_cases h : ℓ < n
      · rw [if_pos h, if_pos h, if_pos h]
        simp [add_assoc]
      · rw [if_neg h, if_neg h]

lemma accumulateAll_perm (n : ℕ) (c : List ℚ) (l1 l2 : List Snapshot)
    (hp : l1.Perm l2) :
    accumulateAll n c l1 = accumulateAll n c l2 := by
  cases l1 with
  | nil =>
      have : l2 = [] := (hp.symm).eq_nil
      rw [this]
  | cons s t =>
      cases l2 with
      | nil => exact absurd hp.eq_nil (by simp)
      | cons s2 t2 =>
          apply List.ext_getElem
          · rw [accumulateAll_cons_length, accumulateAll_cons_length]
          · intro i h1 h2
            have e1 := accumulateAll_cons_getD n t s c i
            have e2 := accumulateAll_cons_getD n t2 s2 c i
            have hsum : ((s :: t).map (fun x => contribAt x i)).sum
                = ((s2 :: t2).map (fun x => contribAt x i)).sum :=
              (hp.map (fun x => contribAt x i)).sum_eq
            have g1 : (accumulateAll n c (s :: t)).getD i 0
                = (accumulateAll n c (s :: t))[i] :=
              List.getD_eq_getElem _ _ h1
            have g2 : (accumulateAll n c (s2 :: t2)).getD i 0
                = (accumulateAll n c (s2 :: t2))[i] :=
              List.getD_eq_getElem _ _ h2
            rw [← g1, ← g2, e1, e2, hsum]

lemma finalize_from_accumulating (i : Imager) (hst : i.st = .accumulating) :
    ∃ img i2, i.asImage = .ok (img, i2) ∧ i2.st = .finalized ∧
      i2.asImage = .ok (img, i2) := by
  refine ⟨mkImage i, { i with st := .finalized, cached := some (mkImage i) },
    ?_, rfl, ?_⟩
  · unfold Imager.asImage
    rw [hst]
  · rfl

/-- C1: For every multiset of valid snapshots, running accumulate() in any
permutation of snapshot order and then finalizing yields the same
FinalImage: accumulation is a purely additive, order-independent reduction
over snapshots (exact equality in the rational model). -/
theorem C1_accumulate_order_independent (n : ℕ) (c : List ℚ)
    (l1 l2 : List Snapshot) (hp : l1.Perm l2) :
    accumulateAll n c l1 = accumulateAll n c l2 ∧
    mkImage (⟨n, .accumulating, accumulateAll n c l1, none⟩ : Imager) =
      mkImage (⟨n, .accumulating, accumulateAll n c l2, none⟩ : Imager) := by
  have h := accumulateAll_perm n c l1 l2 hp
  exact ⟨h, by rw [h]⟩

/-- Witness for C1 at a concrete pair of swapped snapshots. -/
theorem C1_accumulate_order_independent_w :
    accumulateAll 2 [0, 0] [⟨[1], [2], [0]⟩, ⟨[3], [5], [1]⟩]
      = accumulateAll 2 [0, 0] [⟨[3], [5], [1]⟩, ⟨[1], [2], [0]⟩] :=
  (C1_accumulate_order_independent 2 [0, 0]
    [⟨[1], [2], [0]⟩, ⟨[3], [5], [1]⟩] [⟨[3], [5], [1]⟩, ⟨[1], [2], [0]⟩]
    (List.Perm.swap (⟨[3], [5], [1]⟩ : Snapshot) (⟨[1], [2], [0]⟩ : Snapshot) [])).1

/-- C2: After at least one successful accumulate(), as_image() moves the
state ACCUMULATING → FINALIZED, and every subsequent as_image() call
returns exactly the same image and leaves the imager unchanged
(idempotent finalize). -/
theorem C2_as_image_idempotent_finalize (i0 i1 : Imager) (s : Snapshot)
    (h : i0.accumulate s = .ok i1) :
    i1.st = .accumulating ∧
    ∃ img i2, i1.asImage = .ok (img, i2) ∧ i2.st = .finalized ∧
      i2.asImage = .ok (img, i2) := by
  unfold Imager.accumulate at h
  by_cases hf : i0.st = .finalized
  · rw [if_pos hf] at h
    exact absurd h (by simp)
  · rw [if_neg hf] at h
    by_cases hw : s.wellShaped
    · rw [if_pos hw] at h
      injection h with h1
      subst h1
      exact ⟨rfl, finalize_from_accumulating _ rfl⟩
    · rw [if_neg hw] at h
      exact absurd h (by simp)

/-- Witness for C2 at a concrete imager and snapshot. -/
theorem C2_as_image_idempotent_finalize_w :
    (⟨1, .accumulating,
        updCoeffs 1 (List.replicate 1 0) ⟨[1], [2], [0]⟩, none⟩ : Imager).st
        = .accumulating ∧
    ∃ img i2,
      (⟨1, .accumulating,
          updCoeffs 1 (List.replicate 1 0) ⟨[1], [2], [0]⟩, none⟩ : Imager).asImage
        = .ok (img, i2) ∧
      i2.st = .finalized ∧ i2.asImage = .ok (img, i2) :=
  C2_as_image_idempotent_finalize (Imager.new 1) _ ⟨[1], [2], [0]⟩ rfl

/-- C7: accumulate() after finalize and as_image() before any accumulate()
fail fast with StateError, and these are the only state-machine misuses of
the CREATED → ACCUMULATING → FINALIZED lifecycle: on a well-shaped
snapshot, accumulate() succeeds from every non-FINALIZED state (moving to
ACCUMULATING), and as_image() succeeds from every non-CREATED state. -/
theorem C7_state_machine_misuse (n : ℕ) (i i1 : Imager) (s : Snapshot)
    (hs : s.wellShaped = true) :
    (Imager.new n).st = .created ∧
    (Imager.new n).asImage = .error .stateError ∧
    (i.st = .finalized → i.accumulate s = .error .stateError) ∧
    (i.st ≠ .finalized →
      ∃ j, i.accumulate s = .ok j ∧ j.st = .accumulating) ∧
    (i.st = .created → i.asImage = .error .stateError) ∧
    (i.st ≠ .created → ∃ r, i.asImage = .ok r) ∧
    (i.accumulate s = .ok i1 → i1.st = .accumulating) := by
  refine ⟨rfl, rfl, ?_, ?_, ?_, ?_, ?_⟩
  · intro hf
    simp [Imager.accumulate, hf]
  · intro hf
    refine ⟨{ i with st := .accumulating, coeffs := updCoeffs i.nLevel i.coeffs s }, ?_, rfl⟩
    unfold Imager.accumulate
    rw [if_neg hf, if_pos hs]
  · intro hc
    unfold Imager.asImage
    rw [hc]
  · intro hc
    cases hst : i.st with
    | created => exact absurd hst hc
    | accumulating =>
        refine ⟨(mkImage i,
          { i with st := .finalized, cached := some (mkImage i) }), ?_⟩
        unfold Imager.asImage
        rw [hst]
    | finalized =>
        refine ⟨(i.cached.getD (mkImage i), i), ?_⟩
        unfold Imager.asImage
        rw [hst]
  · intro hok
    unfold Imager.accumulate at hok
    by_cases hf : i.st = .finalized
    · rw [if_pos hf] at hok
      exact absurd hok (by simp)
    · rw [if_neg hf, if_pos hs] at hok
      injection hok with h1
      rw [← h1]

/-- Witness for C7 at a concrete imager and well-shaped snapshot. -/
theorem C7_state_machine_misuse_w :
    (⟨2, .finalized, [0, 0], none⟩ : Imager).accumulate ⟨[1], [1], [0]⟩
      = .error .stateError :=
  ((C7_state_machine_misuse 2 ⟨2, .finalized, [0, 0], none⟩
      (Imager.new 2) ⟨[1], [1], [0]⟩ (by decide)).2.2.1) rfl

/-- Insertion of a value into a descending-sorted list. -/
def insertDesc (x : ℚ) : List ℚ → List ℚ
  | [] => [x]
  | y :: ys => if y ≤ x then x :: y :: ys else y :: insertDesc x ys

/-- Sorting a list of eigenvalues in descending order. -/
def sortDesc (l : List ℚ) : List ℚ := l.foldr insertDesc []

lemma insertDesc_perm (x : ℚ) (l : List ℚ) :
    (insertDesc x l).Perm (x :: l) := by
  induction l with
  | nil => exact List.Perm.refl _
  | cons y ys ih =>
      unfold insertDesc
      by_cases h : y ≤ x
      · rw [if_pos h]
      · rw [if_neg h]
        exact (ih.cons y).trans (List.Perm.swap x y ys)

lemma sortDesc_perm (l : List ℚ) : (sortDesc l).Perm l := by
  induction l with
  | nil => exact List.Perm.refl _
  | cons x xs ih =>
      have h1 : sortDesc (x :: xs) = insertDesc x (sortDesc xs) := rfl
      rw [h1]
      exact (insertDesc_perm x (sortDesc xs)).trans (ih.cons x)

/-- Cumulative energy of the k leading eigenvalues of the list D. -/
def psum (D : List ℚ) (k : ℕ) : ℚ := (D.take k).sum

/-- Total accumulated energy of the eigenvalue list D. -/
def etotal (D : List ℚ) : ℚ := D.sum

/-- Smallest index k, scanning k, k+1, ... for the given number of steps,
at which the predicate holds; if it never holds the scan's end value is
returned. -/
def scanLeast (p : ℕ → Bool) : ℕ → ℕ → ℕ
  | k, 0 => k
  | k, m + 1 => if p k then k else scanLeast p (k + 1) m

lemma scanLeast_min (p : ℕ → Bool) :
    ∀ (m k j : ℕ), k ≤ j → j < scanLeast p k m → p j = false := by
  intro m
  induction m with
  | zero =>
      intro k j hkj hj
      exact absurd (lt_of_le_of_lt hkj hj) (lt_irrefl k)
  | succ m ih =>
      intro k j hkj hj
      unfold scanLeast at hj
      by_cases hpk : p k
      · rw [if_pos hpk] at hj
        exact absurd (lt_of_le_of_lt hkj hj) (lt_irrefl k)
      · rw [if_neg hpk] at hj
        rcases Nat.eq_or_lt_of_le hkj with heq | hlt
        · rw [← heq]
          exact Bool.eq_false_iff.mpr hpk
        · exact ih (k + 1) j hlt hj

lemma scanLeast_le (p : ℕ → Bool) :
    ∀ (m k : ℕ), scanLeast p k m ≤ k + m := by
  intro m
  induction m with
  | zero =>
      intro k
      simp [scanLeast]
  | succ m ih =>
      intro k
      unfold scanLeast
      by_cases hpk : p k
      · rw [if_pos hpk]
        exact Nat.le_add_right k (m + 1)
      · rw [if_neg hpk]
        calc scanLeast p (k + 1) m ≤ (k + 1) + m := ih (k + 1)
        _ = k + (m + 1) := by omega

lemma scanLeast_hits (p : ℕ → Bool) :
    ∀ (m k : ℕ), p (scanLeast p k m) = true ∨ scanLeast p k m = k + m := by
  intro m
  induction m with
  | zero =>
      intro k
      right
      simp [scanLeast]
  | succ m ih =>
      intro k
      unfold scanLeast
      by_cases hpk : p k
      · rw [if_pos hpk]
        exact Or.inl hpk
      · rw [if_neg hpk]
        rcases ih (k + 1) with h | h
        · exact Or.inl h
        · right
          rw [h]
          omega

/-- Modelled from the spec: the eigen-count for a descending eigenvalue
list D and significance threshold σ — the smallest number k of leading
eigenvalues whose cumulative energy reaches σ times the total accumulated
energy; if no count reaches it, all eigenvalues are retained. -/
def eigenCountOf (σ : ℚ) (D : List ℚ) : ℕ :=
  scanLeast (fun k => decide (σ * etotal D ≤ psum D k)) 0 D.length

/-- Modelled from the spec: the minimum number of collected snapshots for
the energy statistics to be usable; the spec does not fix the threshold,
one snapshot is the minimum for statistics to exist. -/
def MIN_SNAPSHOTS : ℕ := 1

/-- Modelled from the spec: infer_parameters() of the intensity
ParameterEstimator, restricted to the eigen-count output. `collected` is
the list of per-snapshot eigenvalue lists gathered by collect(); with too
few collected snapshots the eigen-count defaults to the full available
rank `nBeam`; otherwise the pooled eigenvalues are sorted descending and
the smallest leading count reaching the fraction σ of the total energy is
returned. -/
def inferEigenCount (nBeam : ℕ) (collected : List (List ℚ)) (σ : ℚ) : ℕ :=
  if collected.length < MIN_SNAPSHOTS then nBeam
  else eigenCountOf σ (sortDesc collected.flatten)

/-- Modelled from the spec: index of the centroid nearest to the
eigenvalue x (nearest-centroid assignment, a pure function of the
eigenvalue and the centroid list). -/
def nearestIdx (x : ℚ) : List ℚ → ℕ
  | [] => 0
  | [_] => 0
  | c :: d :: rest =>
      let j := nearestIdx x (d :: rest)
      if |x - c| ≤ |x - (d :: rest).getD j 0| then 0 else j + 1

lemma nearestIdx_lt (x : ℚ) :
    ∀ c : List ℚ, c ≠ [] → nearestIdx x c < c.length := by
  intro c
  induction c with
  | nil => intro h; exact absurd rfl h
  | cons a t ih =>
      intro _
      cases t with
      | nil => simp [nearestIdx]
      | cons b r =>
          have hj : nearestIdx x (b :: r) < (b :: r).length :=
            ih (by simp)
          unfold nearestIdx
          by_cases h : |x - a| ≤ |x - (b :: r).getD (nearestIdx x (b :: r)) 0|
          · rw [if_pos h]
            simp
          · rw [if_neg h]
            simpa using Nat.succ_lt_succ hj

/-- Modelled from the spec: the intensity DataProcessor on one snapshot,
reduced to the eigenvalue side — retain the `nEig` leading eigenvalues of
the snapshot (fewer if the snapshot is rank deficient) and assign each to
the nearest centroid, yielding the cluster-index array. -/
def intensityProcess (nEig : ℕ) (centroids : List ℚ) (D : List ℚ) :
    List ℚ × List ℕ :=
  let Dtop := (sortDesc D).take nEig
  (Dtop, Dtop.map (fun d => nearestIdx d centroids))

/-- C3: every entry of the cluster-index array returned by the intensity
DataProcessor lies in [0, N_level): each retained eigen-component is
assigned to exactly one existing energy level. -/
theorem C3_cluster_index_in_range (nLevel nEig : ℕ) (centroids : List ℚ)
    (D : List ℚ) (hc : centroids.length = nLevel) (h0 : 0 < nLevel) :
    ∀ idx ∈ (intensityProcess nEig centroids D).2, idx < nLevel := by
  intro idx hidx
  unfold intensityProcess at hidx
  simp only [List.mem_map] at hidx
  obtain ⟨d, _, hd⟩ := hidx
  have hne : centroids ≠ [] := by
    intro hnil
    rw [hnil] at hc
    simp at hc
    omega
  have hlt := nearestIdx_lt d centroids hne
  rw [hc] at hlt
  rw [← hd]
  exact hlt

/-- Witness for C3 at concrete centroids and eigenvalues. -/
theorem C3_cluster_index_in_range_w :
    0 ∈ (intensityProcess 1 [10] [5]).2 ∧ (0 : ℕ) < 1 :=
  ⟨by decide,
   C3_cluster_index_in_range 1 1 [10] [5] rfl (by decide) 0 (by decide)⟩

/-- C4: infer_parameters() is deterministic in the collected statistics,
and the returned eigen-count is the smallest leading-eigenvalue count
whose cumulative energy reaches the fraction σ of the total accumulated
energy: it never exceeds the number of pooled eigenvalues, every smaller
count falls short of the threshold, and it meets the threshold whenever
any count does. -/
theorem C4_eigen_count_least_threshold (nBeam : ℕ) (σ : ℚ)
    (c c2 : List (List ℚ)) (hn : MIN_SNAPSHOTS ≤ c.length) :
    (c = c2 → inferEigenCount nBeam c σ = inferEigenCount nBeam c2 σ) ∧
    inferEigenCount nBeam c σ ≤ (sortDesc c.flatten).length ∧
    (∀ m, m < inferEigenCount nBeam c σ →
      psum (sortDesc c.flatten) m < σ * etotal (sortDesc c.flatten)) ∧
    ((∃ j, j ≤ (sortDesc c.flatten).length ∧
        σ * etotal (sortDesc c.flatten) ≤ psum (sortDesc c.flatten) j) →
      σ * etotal (sortDesc c.flatten) ≤
        psum (sortDesc c.flatten) (inferEigenCount nBeam c σ)) := by
  have hinfer : inferEigenCount nBeam c σ =
      scanLeast
        (fun k => decide (σ * etotal (sortDesc c.flatten)
          ≤ psum (sortDesc c.flatten) k))
        0 (sortDesc c.flatten).length := by
    unfold inferEigenCount eigenCountOf
    rw [if_neg (by omega)]
  refine ⟨?_, ?_, ?_, ?_⟩
  · intro h
    rw [h]
  · rw [hinfer]
    simpa using scanLeast_le _ (sortDesc c.flatten).length 0
  · intro m hm
    rw [hinfer] at hm
    have hfalse := scanLeast_min _ (sortDesc c.flatten).length 0 m
      (Nat.zero_le m) hm
    simp only [decide_eq_false_iff_not] at hfalse
    exact lt_of_not_le hfalse
  · rintro ⟨j, hj, hpj⟩
    rw [hinfer]
    rcases scanLeast_hits
        (fun k => decide (σ * etotal (sortDesc c.flatten)
          ≤ psum (sortDesc c.flatten) k))
        (sortDesc c.flatten).length 0 with hh | hh
    · exact of_decide_eq_true hh
    · rcases Nat.eq_or_lt_of_le hj with heq | hlt
      · rw [hh, Nat.zero_add, ← heq]
        exact hpj
      · have hfalse := scanLeast_min
          (fun k => decide (σ * etotal (sortDesc c.flatten)
            ≤ psum (sortDesc c.flatten) k))
          (sortDesc c.flatten).length 0 j (Nat.zero_le j)
          (by rw [hh]; omega)
        simp only [decide_eq_false_iff_not] at hfalse
        exact absurd hpj hfalse

/-- Witness for C4 at a concrete collected dataset. -/
theorem C4_eigen_count_least_threshold_w :
    inferEigenCount 3 [[1]] (1 / 2) ≤
      (sortDesc ([[1]] : List (List ℚ)).flatten).length :=
  (C4_eigen_count_least_threshold 3 (1 / 2) [[1]] [[1]] (by decide)).2.1

/-- C5: edge cases of infer_parameters(): with too few collected
snapshots the eigen-count defaults to the full available rank, and for
every collected dataset of positive eigenvalues, σ ≥ 1 retains all pooled
eigenvalues. -/
theorem C5_estimator_edge_cases (nBeam : ℕ) (σ : ℚ) (c : List (List ℚ)) :
    (c.length < MIN_SNAPSHOTS → inferEigenCount nBeam c σ = nBeam) ∧
    (MIN_SNAPSHOTS ≤ c.length → 1 ≤ σ → (∀ x ∈ c.flatten, 0 < x) →
      inferEigenCount nBeam c σ = (sortDesc c.flatten).length) := by
  constructor
  · intro h
    unfold inferEigenCount
    rw [if_pos h]
  · intro hlen hσ hpos
    have hinfer : inferEigenCount nBeam c σ =
        scanLeast
          (fun k => decide (σ * etotal (sortDesc c.flatten)
            ≤ psum (sortDesc c.flatten) k))
          0 (sortDesc c.flatten).length := by
      unfold inferEigenCount eigenCountOf
      rw [if_neg (by omega)]
    have hposD : ∀ x ∈ sortDesc c.flatten, 0 < x := by
      intro x hx
      exact hpos x ((sortDesc_perm c.flatten).mem_iff.mp hx)
    have hfalse : ∀ k, k < (sortDesc c.flatten).length →
        decide (σ * etotal (sortDesc c.flatten)
          ≤ psum (sortDesc c.flatten) k) = false := by
      intro k hk
      have hdropne : (sortDesc c.flatten).drop k ≠ [] := by
        intro hnil
        have hlen0 := congrArg List.length hnil
        simp at hlen0
        omega
      have hdroppos : 0 < ((sortDesc c.flatten).drop k).sum :=
        List.sum_pos _ (fun x hx => hposD x (List.mem_of_mem_drop hx)) hdropne
      have hsplit : psum (sortDesc c.flatten) k
          + ((sortDesc c.flatten).drop k).sum = etotal (sortDesc c.flatten) := by
        unfold psum etotal
        rw [← List.sum_append, List.take_append_drop]
      have hlt : psum (sortDesc c.flatten) k < etotal (sortDesc c.flatten) := by
        linarith
      have hDne : sortDesc c.flatten ≠ [] := by
        intro hnil
        rw [hnil] at hk
        simp at hk
      have htotpos : 0 < etotal (sortDesc c.flatten) := by
        unfold etotal
        exact List.sum_pos _ hposD hDne
      have htot : etotal (sortDesc c.flatten)
          ≤ σ * etotal (sortDesc c.flatten) :=
        le_mul_of_one_le_left (le_of_lt htotpos) hσ
      simp only [decide_eq_false_iff_not]
      intro habs
      linarith
    rw [hinfer]
    rcases scanLeast_hits
        (fun k => decide (σ * etotal (sortDesc c.flatten)
          ≤ psum (sortDesc c.flatten) k))
        (sortDesc c.flatten).length 0 with hh | hh
    · have hle : scanLeast
          (fun k => decide (σ * etotal (sortDesc c.flatten)
            ≤ psum (sortDesc c.flatten) k))
          0 (sortDesc c.flatten).length ≤ (sortDesc c.flatten).length := by
        simpa using scanLeast_le _ (sortDesc c.flatten).length 0
      rcases Nat.eq_or_lt_of_le hle with heq | hlt2
      · exact heq
      · rw [hfalse _ hlt2] at hh
        exact absurd hh (by simp)
    · simpa using hh

/-- Witness for C5 at an empty collected dataset. -/
theorem C5_estimator_edge_cases_w :
    inferEigenCount 7 [] (19 / 20) = 7 :=
  (C5_estimator_edge_cases 7 (19 / 20) []).1 (by decide)

/-- C8: a malformed (shape-mismatched) snapshot aborts accumulate() with
InputShapeError and commits no partial update — the accumulator is left
exactly as before that snapshot — while a well-shaped snapshot always
commits, and rank deficiency in the intensity DataProcessor is recovered
within the snapshot by shrinking the retained component count rather than
aborting the pass. -/
theorem C8_shape_error_no_partial_commit (i : Imager) (s : Snapshot)
    (hbad : s.wellShaped = false) (hst : i.st ≠ .finalized) :
    i.accumulate s = .error .inputShapeError ∧
    (runSnapshot i s).1 = i ∧
    (∀ s2 : Snapshot, s2.wellShaped = true →
      ∃ j, i.accumulate s2 = .ok j) ∧
    (∀ (nEig : ℕ) (centroids D : List ℚ),
      (intensityProcess nEig centroids D).1.length = min nEig D.length) := by
  have h1 : i.accumulate s = .error .inputShapeError := by
    unfold Imager.accumulate
    rw [if_neg hst, if_neg (by simp [hbad])]
  refine ⟨h1, ?_, ?_, ?_⟩
  · unfold runSnapshot
    rw [h1]
  · intro s2 hs2
    refine ⟨{ i with st := .accumulating, coeffs := updCoeffs i.nLevel i.coeffs s2 }, ?_⟩
    unfold Imager.accumulate
    rw [if_neg hst, if_pos hs2]
  · intro nEig centroids D
    unfold intensityProcess
    simp [List.length_take, (sortDesc_perm D).length_eq]

/-- Witness for C8 at a concrete imager and malformed snapshot. -/
theorem C8_shape_error_no_partial_commit_w :
    (⟨2, .created, [0, 0], none⟩ : Imager).accumulate ⟨[1], [], [0]⟩
      = .error .inputShapeError :=
  (C8_shape_error_no_partial_commit ⟨2, .created, [0, 0], none⟩
    ⟨[1], [], [0]⟩ (by decide) (by decide)).1

/-- Indices of the snapshots consumed by a pass that reads every
stride-th snapshot of an observation of n snapshots (the scripts'
time_id=slice(None, None, stride) and time[::stride]). -/
def stridedIndices (stride n : ℕ) : List ℕ :=
  (List.range n).filter (fun i => i % stride == 0)

/-- Stride of the ParameterEstimator collection passes in both example
scripts: 200. -/
def estimatorStride : ℕ := 200

/-- Stride of the intensity DataProcessor/accumulate pass in both example
scripts: 1. -/
def intensityImagingStride : ℕ := 1

/-- Stride of the sensitivity DataProcessor/accumulate pass in both
example scripts: 50. -/
def sensitivityImagingStride : ℕ := 50

/-- C6 counterexample: the sensitivity DataProcessor/accumulate pass does
not consume every snapshot of the observation — with 51 snapshots its
stride-50 loop consumes only snapshots 0 and 50. -/
theorem C6_sensitivity_pass_not_full_cex :
    stridedIndices sensitivityImagingStride 51 ≠ List.range 51 ∧
    stridedIndices sensitivityImagingStride 51 = [0, 50] := by
  constructor
  · decide
  · decide

/-- C6 amended: the ParameterEstimator passes consume a stride-200
subsample (a proper subset once the observation has at least two
snapshots); the intensity DataProcessor/accumulate pass consumes every
snapshot of the observation; the sensitivity DataProcessor/accumulate
pass consumes only a stride-50 subsample. -/
theorem C6_pass_strides :
    (∀ n, stridedIndices intensityImagingStride n = List.range n) ∧
    (∀ n, 2 ≤ n → stridedIndices estimatorStride n ≠ List.range n) ∧
    (∀ n, 2 ≤ n → stridedIndices sensitivityImagingStride n ≠ List.range n) := by
  refine ⟨?_, ?_, ?_⟩
  · intro n
    unfold stridedIndices intensityImagingStride
    apply List.filter_eq_self.mpr
    intro a _
    simp [Nat.mod_one]
  · intro n hn h
    have h1 : (1 : ℕ) ∈ List.range n := List.mem_range.mpr (by omega)
    rw [← h] at h1
    have h2 := (List.mem_filter.mp h1).2
    exact absurd h2 (by decide)
  · intro n hn h
    have h1 : (1 : ℕ) ∈ List.range n := List.mem_range.mpr (by omega)
    rw [← h] at h1
    have h2 := (List.mem_filter.mp h1).2
    exact absurd h2 (by decide)

/-- Witness for the amended C6 at a two-snapshot observation. -/
theorem C6_pass_strides_w :
    stridedIndices sensitivityImagingStride 2 ≠ List.range 2 :=
  C6_pass_strides.2.2 2 (le_refl 2)

/-- Arguments of the Fourier_IMFS_Block constructor as passed by the
example scripts: wavelength, pixel-grid colatitude and longitude, Fourier
bandwidth N_FS, kernel width T_kernel, rotation R, level count N_level
and numeric precision N_bits. -/
structure Fourier_IMFS_Args where
  wl : ℚ
  pix_colat : List ℚ
  pix_lon : List ℚ
  n_FS : ℕ
  t_kernel : ℚ
  r : List (List ℚ)
  n_level : ℕ
  n_bits : ℕ
deriving DecidableEq

/-- N_level = 4 in both example scripts. -/
def script_N_level : ℕ := 4

/-- N_bits = 32 in both example scripts. -/
def script_N_bits : ℕ := 32

/-- The intensity imager construction of
examples/real_data/lofar_bootes_ps.py: Fourier_IMFS_Block(wl, pix_colat,
pix_lon, N_FS, T_kernel, R, N_level, N_bits). -/
def realDataIntensityArgs (wl : ℚ) (pc pl : List ℚ) (nFS : ℕ) (tk : ℚ)
    (r : List (List ℚ)) : Fourier_IMFS_Args :=
  ⟨wl, pc, pl, nFS, tk, r, script_N_level, script_N_bits⟩

/-- The sensitivity imager construction of
examples/real_data/lofar_bootes_ps.py: Fourier_IMFS_Block(wl, pix_colat,
pix_lon, N_FS, T_kernel, R, 1, N_bits). -/
def realDataSensitivityArgs (wl : ℚ) (pc pl : List ℚ) (nFS : ℕ) (tk : ℚ)
    (r : List (List ℚ)) : Fourier_IMFS_Args :=
  ⟨wl, pc, pl, nFS, tk, r, 1, script_N_bits⟩

/-- The intensity imager construction of
examples/simulation/lofar_bootes_ps.py: Fourier_IMFS_Block(wl, pix_colat,
pix_lon, N_FS, T_kernel, R, N_level, N_bits). -/
def simulationIntensityArgs (wl : ℚ) (pc pl : List ℚ) (nFS : ℕ) (tk : ℚ)
    (r : List (List ℚ)) : Fourier_IMFS_Args :=
  ⟨wl, pc, pl, nFS, tk, r, script_N_level, script_N_bits⟩

/-- The sensitivity imager construction of
examples/simulation/lofar_bootes_ps.py: Fourier_IMFS_Block(wl, pix_colat,
pix_lon, N_FS, T_kernel, R, 1, N_bits). -/
def simulationSensitivityArgs (wl : ℚ) (pc pl : List ℚ) (nFS : ℕ) (tk : ℚ)
    (r : List (List ℚ)) : Fourier_IMFS_Args :=
  ⟨wl, pc, pl, nFS, tk, r, 1, script_N_bits⟩

/-- The grid underlying the finalized ImageContainer: the pixel grid the
imager was constructed with. -/
def outputGrid (a : Fourier_IMFS_Args) : List ℚ × List ℚ :=
  (a.pix_colat, a.pix_lon)

/-- C9: in both example scripts the intensity and sensitivity imagers are
constructed with identical wavelength, pixel grid, N_FS, T_kernel,
rotation and numeric precision, differing only in N_level (4 versus 1),
so the finalized intensity and sensitivity images share the same grid. -/
theorem C9_imager_args_match_except_level (wl : ℚ) (pc pl : List ℚ)
    (nFS : ℕ) (tk : ℚ) (r : List (List ℚ)) :
    ((realDataIntensityArgs wl pc pl nFS tk r).wl
        = (realDataSensitivityArgs wl pc pl nFS tk r).wl ∧
      (realDataIntensityArgs wl pc pl nFS tk r).pix_colat
        = (realDataSensitivityArgs wl pc pl nFS tk r).pix_colat ∧
      (realDataIntensityArgs wl pc pl nFS tk r).pix_lon
        = (realDataSensitivityArgs wl pc pl nFS tk r).pix_lon ∧
      (realDataIntensityArgs wl pc pl nFS tk r).n_FS
        = (realDataSensitivityArgs wl pc pl nFS tk r).n_FS ∧
      (realDataIntensityArgs wl pc pl nFS tk r).t_kernel
        = (realDataSensitivityArgs wl pc pl nFS tk r).t_kernel ∧
      (realDataIntensityArgs wl pc pl nFS tk r).r
        = (realDataSensitivityArgs wl pc pl nFS tk r).r ∧
      (realDataIntensityArgs wl pc pl nFS tk r).n_bits
        = (realDataSensitivityArgs wl pc pl nFS tk r).n_bits ∧
      (realDataIntensityArgs wl pc pl nFS tk r).n_level = script_N_level ∧
      (realDataSensitivityArgs wl pc pl nFS tk r).n_level = 1 ∧
      outputGrid (realDataIntensityArgs wl pc pl nFS tk r)
        = outputGrid (realDataSensitivityArgs wl pc pl nFS tk r)) ∧
    ((simulationIntensityArgs wl pc pl nFS tk r).wl
        = (simulationSensitivityArgs wl pc pl nFS tk r).wl ∧
      (simulationIntensityArgs wl pc pl nFS tk r).pix_colat
        = (simulationSensitivityArgs wl pc pl nFS tk r).pix_colat ∧
      (simulationIntensityArgs wl pc pl nFS tk r).pix_lon
        = (simulationSensitivityArgs wl pc pl nFS tk r).pix_lon ∧
      (simulationIntensityArgs wl pc pl nFS tk r).n_FS
        = (simulationSensitivityArgs wl pc pl nFS tk r).n_FS ∧
      (simulationIntensityArgs wl pc pl nFS tk r).t_kernel
        = (simulationSensitivityArgs wl pc pl nFS tk r).t_kernel ∧
      (simulationIntensityArgs wl pc pl nFS tk r).r
        = (simulationSensitivityArgs wl pc pl nFS tk r).r ∧
      (simulationIntensityArgs wl pc pl nFS tk r).n_bits
        = (simulationSensitivityArgs wl pc pl nFS tk r).n_bits ∧
      (simulationIntensityArgs wl pc pl nFS tk r).n_level = script_N_level ∧
      (simulationSensitivityArgs wl pc pl nFS tk r).n_level = 1 ∧
      outputGrid (simulationIntensityArgs wl pc pl nFS tk r)
        = outputGrid (simulationSensitivityArgs wl pc pl nFS tk r)) :=
  ⟨⟨rfl, rfl, rfl, rfl, rfl, rfl, rfl, rfl, rfl, rfl⟩,
   ⟨rfl, rfl, rfl, rfl, rfl, rfl, rfl, rfl, rfl, rfl⟩⟩

/-- An image container as used at the end of the scripts: pixel data and
its grid. -/
structure ImgContainer where
  image : List ℚ
  grid : List ℚ × List ℚ
deriving DecidableEq

/-- Elementwise quotient of two pixel arrays (the scripts' division of
image data by image data). -/
def imgDiv (x y : List ℚ) : List ℚ := List.zipWith (fun a b => a / b) x y

/-- The tail of both scripts: from the intensity images (I_std, I_lsq)
and the sensitivity as_image() pair, the second (least-squares) element S
is selected — the standardized one is bound to a throwaway — and both
intensity images are divided elementwise by S, keeping their grids. -/
def normalizeBySensitivity (iStd iLsq : ImgContainer)
    (sPair : ImgContainer × ImgContainer) : ImgContainer × ImgContainer :=
  (⟨imgDiv iStd.image sPair.2.image, iStd.grid⟩,
   ⟨imgDiv iLsq.image sPair.2.image, iLsq.grid⟩)

/-- The cluster_idx argument passed to the sensitivity imager in both
scripts: np.zeros(N_eig, dtype=int). -/
def sensitivityClusterIdx (nEig : ℕ) : List ℕ := List.replicate nEig 0

/-- C10: the sensitivity-field normalization uses only the least-squares
element of the sensitivity as_image() pair — the result does not depend on
the standardized element — both intensity images are divided by that same
least-squares sensitivity image, and the sensitivity cluster_idx array is
all zeros (every sensitivity eigen-component accumulates into level 0). -/
theorem C10_lsq_sensitivity_normalization (iStd iLsq a a2 b : ImgContainer)
    (nEig : ℕ) :
    normalizeBySensitivity iStd iLsq (a, b)
      = normalizeBySensitivity iStd iLsq (a2, b) ∧
    (normalizeBySensitivity iStd iLsq (a, b)).1.image
      = imgDiv iStd.image b.image ∧
    (normalizeBySensitivity iStd iLsq (a, b)).2.image
      = imgDiv iLsq.image b.image ∧
    ∀ k ∈ sensitivityClusterIdx nEig, k = 0 := by
  refine ⟨rfl, rfl, rfl, ?_⟩
  intro k hk
  exact List.eq_of_mem_replicate hk

end Pypeline
